import Mathlib

/-! Livestatus table `crashreports`.

A shallow embedding of `livestatus/src/TableCrashReports.cc` and the properties
of it that the specification states.

Conventions of the embedding:

* a C++ pointer to the monitoring core is an address into a heap of core
  states; a member function that reads through the pointer takes the heap of
  the moment of the call;
* the query object is mutated through `Query *`; its state is threaded
  explicitly (`σ` in, `σ` out), and a callback that captures the query by
  reference is a function `σ → Bool × σ`;
* a `void` member function returns how it ended (normally, or with the exception
  that left it) together with the state it leaves behind: the table itself and
  the state of the query.
-/

set_option autoImplicit false
set_option linter.dupNamespace false

/-! ## Paths -/

namespace std.filesystem

/-- A `std::filesystem::path` of a POSIX host, represented by its native string. -/
structure path where
  native : String
deriving DecidableEq

end std.filesystem

open std.filesystem (path)

/-! ## Domain objects, rows, the monitoring core -/

/-- The crash report of `CrashReport.h`: the two fields the table reads. -/
structure CrashReport where
  _id : String
  _component : String
deriving DecidableEq

/-- A `Row`: the non-owning pointer to the domain object, `Row(r)` with `r = &cr`. -/
structure Row where
  rawData : CrashReport
deriving DecidableEq

/-- The state of a monitoring core as far as this table observes it:
what `crashReportPath()` returns. -/
structure MonitoringCore where
  crashReportPath : path
deriving DecidableEq

/-- A `MonitoringCore *`. -/
abbrev MonitoringCorePtr := Nat

/-- The cores alive in the process, by address. -/
abbrev Heap := MonitoringCorePtr → MonitoringCore

/-! ## Columns -/

/-- The `Column::Offsets` value; this table passes the empty `offsets{}`. -/
structure Column.Offsets where
  shifts : List Nat
deriving DecidableEq

/-- A column behind the uniform interface: identity plus string extraction. -/
structure Column where
  name : String
  description : String
  offsets : Column.Offsets
  getValue : Row → String

/-- Modelled from the spec: `StringLambdaColumn<CrashReport>` (StringLambdaColumn.h
is not among the sources) is a static column that owns an extraction function
domain-object → string and whose `extract(row)` applies it to the object the row
refers to. -/
def StringLambdaColumn (name description : String) (offsets : Column.Offsets)
    (f : CrashReport → String) : Column :=
  ⟨name, description, offsets, fun row => f row.rawData⟩

/-- A dynamic host-file column as registered: identity, the base-path supplier
(a closure over the core pointer, evaluated against the heap of the call) and
the resolver (column, row, argument string) → optional path. -/
structure DynamicHostFileColumn where
  name : String
  description : String
  offsets : Column.Offsets
  basepath : Heap → path
  filepath : Column → Row → String → Option path

/-- Construction errors of a table (spec §7). -/
inductive ConstructionError where
  | duplicateColumnName (name : String)
deriving DecidableEq

/-- Modelled from the spec: the `Table` base class (Table.h/.cc are not among the
sources): the core pointer handed to `Table(mc)`, the registry of static columns
and the registry of dynamic columns, both in order of registration. -/
structure Table where
  _mc : MonitoringCorePtr
  _columns : List Column
  _dynamic_columns : List DynamicHostFileColumn

/-- The declared names of both registries. -/
def Table.declaredNames (t : Table) : List String :=
  t._columns.map (fun c => c.name) ++ t._dynamic_columns.map (fun d => d.name)

/-- Modelled from the spec: `Table::addColumn` appends to the static registry; a
name already declared in either registry is a construction-time error. -/
def Table.addColumn (t : Table) (col : Column) : Except ConstructionError Table :=
  if col.name ∈ t.declaredNames then .error (.duplicateColumnName col.name)
  else .ok ⟨t._mc, t._columns ++ [col], t._dynamic_columns⟩

/-- Modelled from the spec: `Table::addDynamicColumn` appends to the dynamic
registry; a name already declared in either registry is a construction-time
error. -/
def Table.addDynamicColumn (t : Table) (dyn : DynamicHostFileColumn) :
    Except ConstructionError Table :=
  if dyn.name ∈ t.declaredNames then .error (.duplicateColumnName dyn.name)
  else .ok ⟨t._mc, t._columns, t._dynamic_columns ++ [dyn]⟩

/-- The accessor `Table::core()`: the core the stored pointer refers to. -/
def Table.core (t : Table) (heap : Heap) : MonitoringCore :=
  heap t._mc

/-! ## The query sink -/

/-- The query as the table sees it: `processDataset(row) -> bool` acting on the
state `σ` of the query object. -/
structure Query (σ : Type) where
  processDataset : Row → σ → Bool × σ

/-! ## The enumerator -/

/-- Failures of an enumeration (spec §4.3: I/O error, missing directory). -/
inductive EnumError where
  | ioError
  | missingDirectory
deriving DecidableEq

/-- What scanning a directory discovers: crash reports in order and, possibly,
a failure that ends the scan after them. -/
structure DirectoryScan where
  reports : List CrashReport
  failure : Option EnumError
deriving DecidableEq

/-- The crash-report directories on disk, by root path. -/
abbrev FileSystem := path → DirectoryScan

namespace mk.crash_report

/-- Modelled from the spec: the visiting loop of `mk::crash_report::any`
(CrashReport.cc is not among the sources): objects are visited in order and the
visit stops at the first object for which the callback returns true. The Boolean
tells whether the loop was stopped. -/
def anyLoop {σ : Type} (pred : CrashReport → σ → Bool × σ) :
    List CrashReport → σ → Bool × σ
  | [], s => (false, s)
  | cr :: rest, s =>
    match pred cr s with
    | (true, s1) => (true, s1)
    | (false, s1) => anyLoop pred rest s1

/-- Modelled from the spec: `mk::crash_report::any` (CrashReport.cc is not among
the sources), the enumerator `enumerate(rootPath, visit) -> Result<(), EnumError>`:
it scans the root path and feeds the callback. The error case of the result is
the failure of the scan (I/O error, missing directory), which leaves the C++
function as an exception, when the loop ran into it; the state is the one the
callbacks made so far have left. -/
def any {σ : Type} (fs : FileSystem) (base_path : path)
    (pred : CrashReport → σ → Bool × σ) (s : σ) : Except EnumError Unit × σ :=
  match anyLoop pred (fs base_path).reports s with
  | (true, s1) => (.ok (), s1)
  | (false, s1) =>
    match (fs base_path).failure with
    | none => (.ok (), s1)
    | some e => (.error e, s1)

end mk.crash_report

/-! ## TableCrashReports -/

namespace TableCrashReports

/-- The lambda `[](const CrashReport &r) { return r._id; }`. -/
def idLambda (r : CrashReport) : String := r._id

/-- The lambda `[](const CrashReport &r) { return r._component; }`. -/
def componentLambda (r : CrashReport) : String := r._component

/-- The lambda `[mc] { return mc->crashReportPath(); }`: the pointer is
captured, the core is read when the closure is called. -/
def basepathLambda (mc : MonitoringCorePtr) (heap : Heap) : path :=
  (heap mc).crashReportPath

/-- The lambda `[](const Column &, const Row &, const std::string &args)
-> std::optional<std::filesystem::path> { return args; }`. -/
def filepathLambda (_col : Column) (_row : Row) (args : String) : Option path :=
  some ⟨args⟩

/-- The constructor `TableCrashReports::TableCrashReports(MonitoringCore *mc)`,
run in the heap of the moment of construction: `Table(mc)`, then the three
registrations in source order. -/
def TableCrashReports (mc : MonitoringCorePtr) (_heap : Heap) :
    Except ConstructionError Table :=
  let offsets : Column.Offsets := ⟨[]⟩
  (Table.addColumn ⟨mc, [], []⟩
      (StringLambdaColumn "id" "The ID of a crash report" offsets idLambda)).bind fun t1 =>
  (Table.addColumn t1
      (StringLambdaColumn "component"
        "The component that crashed (gui, agent, check, etc.)" offsets
        componentLambda)).bind fun t2 =>
  Table.addDynamicColumn t2
    ⟨"file", "Files related to the crash report (crash.info, etc.)", offsets,
      basepathLambda mc, filepathLambda⟩

/-- The member `TableCrashReports::name() const`. -/
def name (_this : Table) : String := "crashreports"

/-- The member `TableCrashReports::namePrefix() const`. -/
def namePrefix (_this : Table) : String := "crashreport_"

/-- The lambda `[&query](const CrashReport &cr) { const CrashReport *r = &cr;
return !query->processDataset(Row(r)); }`. -/
def answerQuery.visitor {σ : Type} (query : Query σ) (cr : CrashReport) (s : σ) :
    Bool × σ :=
  let r := cr
  match query.processDataset ⟨r⟩ s with
  | (b, s1) => (!b, s1)

/-- The member `void TableCrashReports::answerQuery(Query *query)`: one call of
`mk::crash_report::any` as an expression statement. The value the call returns is
discarded; there is no `try`/`catch` around it, so an exception of the enumerator
leaves `answerQuery` as well. The result is how the call ended, the table and the
state of the query. -/
def answerQuery {σ : Type} (this : Table) (heap : Heap) (fs : FileSystem)
    (query : Query σ) (s : σ) : Except EnumError Unit × Table × σ :=
  match mk.crash_report.any fs (this.core heap).crashReportPath
      (answerQuery.visitor query) s with
  | (.ok _, s1) => (.ok (), this, s1)
  | (.error e, s1) => (.error e, this, s1)

end TableCrashReports

/-! ## Observing the calls made on a sink -/

/-- The sink `q` with a log: every call of `processDataset` is appended to the
log together with the answer `q` gave; the answers are those of `q`. -/
def Query.recording {σ : Type} (q : Query σ) : Query (σ × List (Row × Bool)) :=
  ⟨fun row st =>
    match q.processDataset row st.1 with
    | (b, s1) => (b, (s1, st.2 ++ [(row, b)]))⟩

/-- The calls of `processDataset` made by one `answerQuery` on sink `q` started
in state `s`: each row handed over, with the answer. -/
def TableCrashReports.calls {σ : Type} (this : Table) (heap : Heap) (fs : FileSystem)
    (q : Query σ) (s : σ) : List (Row × Bool) :=
  (TableCrashReports.answerQuery this heap fs q.recording (s, [])).2.2.2

/-- The calls a visit of the reports `rs` makes on sink `q` from state `s`, told
from the sink alone: a row is handed over while every earlier answer was true. -/
def Query.callsOn {σ : Type} (q : Query σ) : List CrashReport → σ → List (Row × Bool)
  | [], _ => []
  | cr :: rest, s =>
    match q.processDataset ⟨cr⟩ s with
    | (true, s1) => (⟨cr⟩, true) :: Query.callsOn q rest s1
    | (false, _) => [(⟨cr⟩, false)]

/-- A sink with a `LIMIT n`: it counts the rows it has taken and asks for more
only while fewer than `n` have been taken. -/
def limitSink (n : Nat) : Query Nat :=
  ⟨fun _ c => (decide (c + 1 < n), c + 1)⟩

/-- A sink that takes every row and keeps no state. -/
def fullScanSink : Query Unit :=
  ⟨fun _ _ => (true, ())⟩

/-- A heap in which every core reports the crash-report directory `p`. -/
def constHeap (p : String) : Heap := fun _ => ⟨⟨p⟩⟩

/-- The first crash report of the example scenario. -/
def reportA1 : CrashReport := ⟨"a1", "agent"⟩

/-- The second crash report of the example scenario. -/
def reportG2 : CrashReport := ⟨"g2", "gui"⟩

/-- A third crash report. -/
def reportC3 : CrashReport := ⟨"c3", "check"⟩

/-- A file system whose every directory holds the given scan. -/
def constFS (scan : DirectoryScan) : FileSystem := fun _ => scan

/-- The projection of a row through all static columns of a table, in registry order. -/
def Table.project (t : Table) (row : Row) : List String :=
  t._columns.map fun c => c.getValue row

/-! ## The visiting loop and the log -/

section Loop

variable {σ : Type}

theorem visitor_eq (q : Query σ) (cr : CrashReport) (s : σ) :
    TableCrashReports.answerQuery.visitor q cr s
      = (!(q.processDataset ⟨cr⟩ s).1, (q.processDataset ⟨cr⟩ s).2) := by
  simp only [TableCrashReports.answerQuery.visitor]

theorem visitor_recording (q : Query σ) (cr : CrashReport) (s : σ) (L : List (Row × Bool)) :
    TableCrashReports.answerQuery.visitor q.recording cr (s, L)
      = (!(q.processDataset ⟨cr⟩ s).1,
          ((q.processDataset ⟨cr⟩ s).2, L ++ [(⟨cr⟩, (q.processDataset ⟨cr⟩ s).1)])) := by
  simp only [TableCrashReports.answerQuery.visitor, Query.recording]

theorem anyLoop_recording_log (q : Query σ) (rs : List CrashReport) (s : σ)
    (L : List (Row × Bool)) :
    (mk.crash_report.anyLoop (TableCrashReports.answerQuery.visitor q.recording) rs (s, L)).2.2
      = L ++ q.callsOn rs s := by
  induction rs generalizing s L with
  | nil => simp [mk.crash_report.anyLoop, Query.callsOn]
  | cons cr rest ih =>
    rw [mk.crash_report.anyLoop, visitor_recording, Query.callsOn]
    rcases h : q.processDataset ⟨cr⟩ s with ⟨b, s1⟩
    cases b
    · simp
    · simp [ih]

theorem anyLoop_recording_state (q : Query σ) (rs : List CrashReport) (s : σ)
    (L : List (Row × Bool)) :
    (mk.crash_report.anyLoop (TableCrashReports.answerQuery.visitor q.recording) rs (s, L)).1
        = (mk.crash_report.anyLoop (TableCrashReports.answerQuery.visitor q) rs s).1
      ∧ (mk.crash_report.anyLoop (TableCrashReports.answerQuery.visitor q.recording) rs
          (s, L)).2.1
        = (mk.crash_report.anyLoop (TableCrashReports.answerQuery.visitor q) rs s).2 := by
  induction rs generalizing s L with
  | nil => simp [mk.crash_report.anyLoop]
  | cons cr rest ih =>
    rw [mk.crash_report.anyLoop, mk.crash_report.anyLoop, visitor_recording, visitor_eq]
    rcases h : q.processDataset ⟨cr⟩ s with ⟨b, s1⟩
    cases b
    · simp
    · simpa using ih s1 _

theorem any_state (fs : FileSystem) (base_path : path)
    (pred : CrashReport → σ → Bool × σ) (s : σ) :
    (mk.crash_report.any fs base_path pred s).2
      = (mk.crash_report.anyLoop pred (fs base_path).reports s).2 := by
  unfold mk.crash_report.any
  rcases h : mk.crash_report.anyLoop pred (fs base_path).reports s with ⟨b, s1⟩
  cases b
  · cases hf : (fs base_path).failure <;> simp
  · simp

theorem any_outcome_of_stopped (fs : FileSystem) (base_path : path)
    (pred : CrashReport → σ → Bool × σ) (s : σ)
    (h : (mk.crash_report.anyLoop pred (fs base_path).reports s).1 = true) :
    (mk.crash_report.any fs base_path pred s).1 = .ok () := by
  unfold mk.crash_report.any
  rcases hl : mk.crash_report.anyLoop pred (fs base_path).reports s with ⟨b, s1⟩
  rw [hl] at h
  cases b
  · simp at h
  · rfl

theorem any_outcome_of_no_failure (fs : FileSystem) (base_path : path)
    (pred : CrashReport → σ → Bool × σ) (s : σ) (h : (fs base_path).failure = none) :
    (mk.crash_report.any fs base_path pred s).1 = .ok () := by
  unfold mk.crash_report.any
  rcases hl : mk.crash_report.anyLoop pred (fs base_path).reports s with ⟨b, s1⟩
  cases b
  · simp [h]
  · rfl

theorem answerQuery_outcome (this : Table) (heap : Heap) (fs : FileSystem) (q : Query σ)
    (s : σ) :
    (TableCrashReports.answerQuery this heap fs q s).1
      = (mk.crash_report.any fs (this.core heap).crashReportPath
          (TableCrashReports.answerQuery.visitor q) s).1 := by
  unfold TableCrashReports.answerQuery
  rcases h : mk.crash_report.any fs (this.core heap).crashReportPath
    (TableCrashReports.answerQuery.visitor q) s with ⟨r, s1⟩
  cases r <;> rfl

theorem answerQuery_state (this : Table) (heap : Heap) (fs : FileSystem) (q : Query σ)
    (s : σ) :
    (TableCrashReports.answerQuery this heap fs q s).2
      = (this, (mk.crash_report.anyLoop (TableCrashReports.answerQuery.visitor q)
          (fs (this.core heap).crashReportPath).reports s).2) := by
  rw [← any_state]
  unfold TableCrashReports.answerQuery
  rcases h : mk.crash_report.any fs (this.core heap).crashReportPath
    (TableCrashReports.answerQuery.visitor q) s with ⟨r, s1⟩
  cases r <;> rfl

theorem calls_eq_callsOn (this : Table) (heap : Heap) (fs : FileSystem) (q : Query σ)
    (s : σ) :
    TableCrashReports.calls this heap fs q s
      = q.callsOn (fs (this.core heap).crashReportPath).reports s := by
  simp only [TableCrashReports.calls, answerQuery_state, anyLoop_recording_log,
    List.nil_append]

theorem callsOn_rows (q : Query σ) (rs : List CrashReport) (s : σ) :
    (q.callsOn rs s).map Prod.fst = (rs.take (q.callsOn rs s).length).map Row.mk := by
  induction rs generalizing s with
  | nil => simp [Query.callsOn]
  | cons cr rest ih =>
    rw [Query.callsOn]
    rcases h : q.processDataset ⟨cr⟩ s with ⟨b, s1⟩
    cases b
    · simp
    · simp [ih s1]

theorem callsOn_length_le (q : Query σ) (rs : List CrashReport) (s : σ) :
    (q.callsOn rs s).length ≤ rs.length := by
  induction rs generalizing s with
  | nil => simp [Query.callsOn]
  | cons cr rest ih =>
    rw [Query.callsOn]
    rcases h : q.processDataset ⟨cr⟩ s with ⟨b, s1⟩
    cases b
    · simp
    · simpa using ih s1

theorem callsOn_false_last (q : Query σ) (rs : List CrashReport) (s : σ) (j : Nat)
    (row : Row) (h : (q.callsOn rs s)[j]? = some (row, false)) :
    (q.callsOn rs s).length = j + 1 := by
  induction rs generalizing s j with
  | nil => simp [Query.callsOn] at h
  | cons cr rest ih =>
    rw [Query.callsOn] at h ⊢
    rcases hp : q.processDataset ⟨cr⟩ s with ⟨b, s1⟩
    rw [hp] at h
    cases b
    · cases j with
      | zero => simp
      | succ j => simp at h
    · cases j with
      | zero => simp at h
      | succ j =>
        simp only [List.getElem?_cons_succ] at h
        simpa using ih s1 j h

theorem callsOn_of_not_stopped (q : Query σ) (rs : List CrashReport) (s : σ)
    (h : (mk.crash_report.anyLoop (TableCrashReports.answerQuery.visitor q) rs s).1 = false) :
    q.callsOn rs s = rs.map fun cr => (Row.mk cr, true) := by
  induction rs generalizing s with
  | nil => simp [Query.callsOn]
  | cons cr rest ih =>
    rw [mk.crash_report.anyLoop, visitor_eq] at h
    rw [Query.callsOn]
    rcases hp : q.processDataset ⟨cr⟩ s with ⟨b, s1⟩
    rw [hp] at h
    cases b
    · simp at h
    · simp at h
      simp [ih s1 h]

theorem anyLoop_stopped_of_false (q : Query σ) (rs : List CrashReport) (s : σ) (j : Nat)
    (row : Row) (h : (q.callsOn rs s)[j]? = some (row, false)) :
    (mk.crash_report.anyLoop (TableCrashReports.answerQuery.visitor q) rs s).1 = true := by
  induction rs generalizing s j with
  | nil => simp [Query.callsOn] at h
  | cons cr rest ih =>
    rw [Query.callsOn] at h
    rw [mk.crash_report.anyLoop, visitor_eq]
    rcases hp : q.processDataset ⟨cr⟩ s with ⟨b, s1⟩
    rw [hp] at h
    cases b
    · simp
    · cases j with
      | zero => simp at h
      | succ j =>
        simp only [List.getElem?_cons_succ] at h
        simpa using ih s1 j h

theorem anyLoop_take_calls (q : Query σ) (rs : List CrashReport) (s : σ) :
    mk.crash_report.anyLoop (TableCrashReports.answerQuery.visitor q)
        (rs.take (q.callsOn rs s).length) s
      = mk.crash_report.anyLoop (TableCrashReports.answerQuery.visitor q) rs s := by
  induction rs generalizing s with
  | nil => simp [Query.callsOn]
  | cons cr rest ih =>
    rw [Query.callsOn]
    rcases hp : q.processDataset ⟨cr⟩ s with ⟨b, s1⟩
    cases b
    · simp [mk.crash_report.anyLoop, visitor_eq, hp]
    · simp [mk.crash_report.anyLoop, visitor_eq, hp, ih s1]

end Loop

/-! ## Construction -/

theorem constructor_ok (mc : MonitoringCorePtr) (heap : Heap) :
    TableCrashReports.TableCrashReports mc heap
      = .ok ⟨mc,
          [StringLambdaColumn "id" "The ID of a crash report" ⟨[]⟩
              TableCrashReports.idLambda,
            StringLambdaColumn "component"
              "The component that crashed (gui, agent, check, etc.)" ⟨[]⟩
              TableCrashReports.componentLambda],
          [⟨"file", "Files related to the crash report (crash.info, etc.)", ⟨[]⟩,
              TableCrashReports.basepathLambda mc, TableCrashReports.filepathLambda⟩]⟩ := by
  rfl

theorem callsOn_of_answers_true {σ : Type} (q : Query σ) (rs : List CrashReport) (s : σ)
    (h : ∀ c ∈ q.callsOn rs s, c.2 = true) :
    q.callsOn rs s = rs.map fun cr => (Row.mk cr, true) := by
  induction rs generalizing s with
  | nil => simp [Query.callsOn]
  | cons cr rest ih =>
    rw [Query.callsOn] at h ⊢
    rcases hp : q.processDataset ⟨cr⟩ s with ⟨b, s1⟩
    rw [hp] at h
    cases b
    · simp at h
    · simp only [List.mem_cons] at h
      simp [ih s1 fun c hc => h c (Or.inr hc)]

theorem recording_faithful {σ : Type} (this : Table) (heap : Heap) (fs : FileSystem)
    (q : Query σ) (s : σ) :
    (TableCrashReports.answerQuery this heap fs q.recording (s, [])).2.2.1
      = (TableCrashReports.answerQuery this heap fs q s).2.2 := by
  simp only [answerQuery_state, anyLoop_recording_state]

/-! ## Enumeration: early stop and full scan -/

/-- C1 — early stop of `TableCrashReports::answerQuery`. With the enumerator
visiting the reports in order and stopping at the first one for which the callback
returns true: if `processDataset` answers false for the `k`-th row delivered
(`k ≥ 1`), then the rows `processDataset` was called on are exactly the first `k`
reports of the source, in order, each once — there are exactly `k` calls, none on
a later report — and the query is left in the state a source holding only those
first `k` reports leaves it in, whatever the size of the source. -/
theorem answerQuery_early_stop {σ : Type} (this : Table) (heap : Heap) (fs : FileSystem)
    (q : Query σ) (s : σ) (k : Nat) (row : Row) (hk : 0 < k)
    (hstop : (TableCrashReports.calls this heap fs q s)[k - 1]? = some (row, false)) :
    (TableCrashReports.calls this heap fs q s).map Prod.fst
        = ((fs (this.core heap).crashReportPath).reports.take k).map Row.mk
      ∧ (TableCrashReports.calls this heap fs q s).length = k
      ∧ k ≤ (fs (this.core heap).crashReportPath).reports.length
      ∧ TableCrashReports.answerQuery this heap fs q s
          = TableCrashReports.answerQuery this heap
              (constFS ⟨(fs (this.core heap).crashReportPath).reports.take k, none⟩) q s := by
  rw [calls_eq_callsOn] at hstop ⊢
  have hstopped := anyLoop_stopped_of_false q _ s (k - 1) row hstop
  have hlen := callsOn_false_last q _ s (k - 1) row hstop
  have hk1 : k - 1 + 1 = k := Nat.sub_add_cancel hk
  rw [hk1] at hlen
  refine ⟨?_, hlen, ?_, ?_⟩
  · rw [callsOn_rows, hlen]
  · rw [← hlen]
    exact callsOn_length_le q _ s
  · refine Prod.ext ?_ ?_
    · rw [answerQuery_outcome, answerQuery_outcome,
        any_outcome_of_stopped fs _ _ s hstopped, any_outcome_of_no_failure _ _ _ s rfl]
    · rw [answerQuery_state, answerQuery_state]
      simp only [constFS]
      rw [← hlen, anyLoop_take_calls]

/-- A source of three reports and a sink that stops at its second row: two calls. -/
theorem answerQuery_early_stop_witness :
    (TableCrashReports.calls ⟨0, [], []⟩ (constHeap "/var/crash")
        (constFS ⟨[reportA1, reportG2, reportC3], none⟩) (limitSink 2) 0)[2 - 1]?
        = some (⟨reportG2⟩, false)
      ∧ (TableCrashReports.calls ⟨0, [], []⟩ (constHeap "/var/crash")
          (constFS ⟨[reportA1, reportG2, reportC3], none⟩) (limitSink 2) 0).map Prod.fst
        = [⟨reportA1⟩, ⟨reportG2⟩] :=
  ⟨by decide,
    (answerQuery_early_stop ⟨0, [], []⟩ (constHeap "/var/crash")
      (constFS ⟨[reportA1, reportG2, reportC3], none⟩) (limitSink 2) 0 2 ⟨reportG2⟩
      (by decide) (by decide)).1⟩

/-- C2 — full scan of `TableCrashReports::answerQuery`. If every answer of
`processDataset` during the query is true, then `processDataset` is called exactly
once per report, in enumerator order, each time with the row referring to that
report. For the reports (a1, agent) and (g2, gui) the rows, projected through the
static columns of the constructed table, are (a1, agent) then (g2, gui). -/
theorem answerQuery_full_scan {σ : Type} (this : Table) (heap : Heap) (fs : FileSystem)
    (q : Query σ) (s : σ)
    (hall : ∀ c ∈ TableCrashReports.calls this heap fs q s, c.2 = true) :
    TableCrashReports.calls this heap fs q s
        = (fs (this.core heap).crashReportPath).reports.map (fun cr => (Row.mk cr, true))
      ∧ (TableCrashReports.calls this heap fs q s).map Prod.fst
        = (fs (this.core heap).crashReportPath).reports.map Row.mk
      ∧ (match TableCrashReports.TableCrashReports 0 (constHeap "/var/crash") with
          | .ok t =>
            (TableCrashReports.calls t (constHeap "/var/crash")
              (constFS ⟨[reportA1, reportG2], none⟩) fullScanSink ()).map
                fun c => t.project c.1
          | .error _ => [])
        = [["a1", "agent"], ["g2", "gui"]] := by
  rw [calls_eq_callsOn] at hall ⊢
  have h := callsOn_of_answers_true q _ s hall
  refine ⟨h, ?_, by decide⟩
  rw [h, List.map_map]
  rfl

/-- The sink without stop condition on a source of two reports. -/
theorem answerQuery_full_scan_witness :
    (∀ c ∈ TableCrashReports.calls ⟨0, [], []⟩ (constHeap "/var/crash")
        (constFS ⟨[reportA1, reportG2], none⟩) fullScanSink (), c.2 = true)
      ∧ TableCrashReports.calls ⟨0, [], []⟩ (constHeap "/var/crash")
          (constFS ⟨[reportA1, reportG2], none⟩) fullScanSink ()
        = [(⟨reportA1⟩, true), (⟨reportG2⟩, true)] :=
  ⟨by decide,
    (answerQuery_full_scan ⟨0, [], []⟩ (constHeap "/var/crash")
      (constFS ⟨[reportA1, reportG2], none⟩) fullScanSink () (by decide)).1⟩

/-! ## Columns of the table -/

/-- C3 — the resolver registered for the dynamic column `file` is an identity
pass-through: the constructed table has exactly one dynamic column, named `file`,
and for every column, row and argument string its resolver returns a present path
whose text is the argument itself — for the empty string and for strings with a
separator or `..` as for any other; the base path takes no part in it. -/
theorem file_resolver_identity (mc : MonitoringCorePtr) (heap : Heap) (col : Column)
    (row : Row) (args : String) :
    ∃ t file, TableCrashReports.TableCrashReports mc heap = .ok t
      ∧ t._dynamic_columns = [file] ∧ file.name = "file"
      ∧ file.filepath col row args = some ⟨args⟩
      ∧ (file.filepath col row args).map (fun p => p.native) = some args
      ∧ file.filepath col row "" = some ⟨""⟩
      ∧ file.filepath col row "../../etc/passwd" = some ⟨"../../etc/passwd"⟩ :=
  ⟨_, _, constructor_ok mc heap, rfl, rfl, rfl, rfl, rfl, rfl⟩

/-- C4 — static column extraction is a total projection: the constructed table
has exactly the static columns `id` and `component`; on the row of any crash
report `r` the first yields `r._id` and the second `r._component`, an empty field
yields the empty string, and the value is a function of the row alone, so a
second extraction on the same row gives the same value. -/
theorem static_columns_project (mc : MonitoringCorePtr) (heap : Heap) (r : CrashReport)
    (other : String) :
    ∃ t cid ccomp, TableCrashReports.TableCrashReports mc heap = .ok t
      ∧ t._columns = [cid, ccomp] ∧ cid.name = "id" ∧ ccomp.name = "component"
      ∧ cid.getValue ⟨r⟩ = r._id ∧ ccomp.getValue ⟨r⟩ = r._component
      ∧ cid.getValue ⟨⟨"", other⟩⟩ = "" ∧ ccomp.getValue ⟨⟨other, ""⟩⟩ = ""
      ∧ t.project ⟨r⟩ = [r._id, r._component] :=
  ⟨_, _, _, constructor_ok mc heap, rfl, rfl, rfl, rfl, rfl, rfl, rfl, rfl⟩

/-- C5 — table identity is stable: for every table instance (whatever its core
pointer and registries) `name()` is "crashreports" and `namePrefix()` is
"crashreport_", also for the table as a query leaves it, in any heap, on any file
system and with any sink. -/
theorem name_stable {σ : Type} (this : Table) (heap : Heap) (fs : FileSystem)
    (q : Query σ) (s : σ) :
    TableCrashReports.name this = "crashreports"
      ∧ TableCrashReports.namePrefix this = "crashreport_"
      ∧ TableCrashReports.name (TableCrashReports.answerQuery this heap fs q s).2.1
          = "crashreports"
      ∧ TableCrashReports.namePrefix (TableCrashReports.answerQuery this heap fs q s).2.1
          = "crashreport_" :=
  ⟨rfl, rfl, rfl, rfl⟩

/-- C7 — the base-path supplier of the dynamic column `file` is not cached at
construction: whatever the heap `heap0` the table was constructed in, a call of
the supplier in heap `heap` returns the `crashReportPath()` of the core in `heap`;
after the path of that core is set to `p2`, the supplier returns `p2`. -/
theorem basepath_not_cached (mc : MonitoringCorePtr) (heap0 heap : Heap) (p2 : path) :
    ∃ t file, TableCrashReports.TableCrashReports mc heap0 = .ok t
      ∧ t._dynamic_columns = [file]
      ∧ file.basepath heap = (heap mc).crashReportPath
      ∧ file.basepath (Function.update heap mc ⟨p2⟩) = p2 :=
  ⟨_, _, constructor_ok mc heap0, rfl, rfl, by
    simp [TableCrashReports.basepathLambda]⟩

/-- C10 — registry shape after construction: the constructor succeeds; the static
registry holds exactly the columns named `id` then `component`, the dynamic
registry exactly one column named `file`; the three names are pairwise distinct;
and `answerQuery` returns the table as it found it. -/
theorem registry_shape (mc : MonitoringCorePtr) (heap0 : Heap) :
    ∃ t, TableCrashReports.TableCrashReports mc heap0 = .ok t
      ∧ t._mc = mc
      ∧ t._columns.map (fun c => c.name) = ["id", "component"]
      ∧ t._dynamic_columns.map (fun d => d.name) = ["file"]
      ∧ t.declaredNames.Nodup
      ∧ ∀ (σ : Type) (heap : Heap) (fs : FileSystem) (q : Query σ) (s : σ),
          (TableCrashReports.answerQuery t heap fs q s).2.1 = t :=
  ⟨_, constructor_ok mc heap0, rfl, rfl, rfl,
    show ["id", "component", "file"].Nodup by decide,
    fun _ heap fs q s => congrArg Prod.fst (answerQuery_state _ heap fs q s)⟩

/-! ## Failures of the enumerator -/

theorem any_error {σ : Type} (fs : FileSystem) (base_path : path)
    (pred : CrashReport → σ → Bool × σ) (s : σ) (e : EnumError)
    (h : (mk.crash_report.any fs base_path pred s).1 = .error e) :
    (mk.crash_report.anyLoop pred (fs base_path).reports s).1 = false
      ∧ (fs base_path).failure = some e := by
  unfold mk.crash_report.any at h
  rcases hl : mk.crash_report.anyLoop pred (fs base_path).reports s with ⟨b, s1⟩
  rw [hl] at h
  cases b
  · cases hf : (fs base_path).failure with
    | none => rw [hf] at h; simp at h
    | some e1 =>
      rw [hf] at h
      simp only [Except.error.injEq] at h
      simp [h]
  · simp at h

/-- C6 — enumeration failures are surfaced: if the enumerator reports a failure
after yielding some objects, `answerQuery` ends with that failure, which is not
the way it ends on a successful enumeration of the same reports (that one ends
normally), while the sink has received exactly the rows yielded before the
failure, each once and in order, and is left in the state the successful
enumeration of those rows leaves it in. -/
theorem answerQuery_surfaces_failure {σ : Type} (this : Table) (heap : Heap)
    (fs : FileSystem) (q : Query σ) (s : σ) (e : EnumError)
    (hfail : (mk.crash_report.any fs (this.core heap).crashReportPath
        (TableCrashReports.answerQuery.visitor q) s).1 = .error e) :
    (TableCrashReports.answerQuery this heap fs q s).1 = .error e
      ∧ (TableCrashReports.answerQuery this heap
          (constFS ⟨(fs (this.core heap).crashReportPath).reports, none⟩) q s).1 = .ok ()
      ∧ (TableCrashReports.answerQuery this heap fs q s).1
        ≠ (TableCrashReports.answerQuery this heap
            (constFS ⟨(fs (this.core heap).crashReportPath).reports, none⟩) q s).1
      ∧ (TableCrashReports.answerQuery this heap fs q s).2
        = (TableCrashReports.answerQuery this heap
            (constFS ⟨(fs (this.core heap).crashReportPath).reports, none⟩) q s).2
      ∧ TableCrashReports.calls this heap fs q s
        = (fs (this.core heap).crashReportPath).reports.map (fun cr => (Row.mk cr, true)) := by
  have hloop := (any_error fs _ _ s e hfail).1
  have h1 : (TableCrashReports.answerQuery this heap fs q s).1 = .error e := by
    rw [answerQuery_outcome, hfail]
  have h2 : (TableCrashReports.answerQuery this heap
      (constFS ⟨(fs (this.core heap).crashReportPath).reports, none⟩) q s).1 = .ok () := by
    rw [answerQuery_outcome, any_outcome_of_no_failure _ _ _ s rfl]
  refine ⟨h1, h2, ?_, ?_, ?_⟩
  · rw [h1, h2]
    exact fun h => Except.noConfusion h
  · rw [answerQuery_state, answerQuery_state]
    rfl
  · rw [calls_eq_callsOn]
    exact callsOn_of_not_stopped q _ s hloop

/-- An I/O failure after one report, met by a sink that would take five rows:
`answerQuery` ends with the I/O failure and the sink has received the one row. -/
theorem answerQuery_surfaces_failure_witness :
    (mk.crash_report.any (constFS ⟨[reportA1], some .ioError⟩)
        (Table.core ⟨0, [], []⟩ (constHeap "/var/crash")).crashReportPath
        (TableCrashReports.answerQuery.visitor (limitSink 5)) 0).1 = .error .ioError
      ∧ (TableCrashReports.answerQuery ⟨0, [], []⟩ (constHeap "/var/crash")
          (constFS ⟨[reportA1], some .ioError⟩) (limitSink 5) 0).1 = .error .ioError
      ∧ TableCrashReports.calls ⟨0, [], []⟩ (constHeap "/var/crash")
          (constFS ⟨[reportA1], some .ioError⟩) (limitSink 5) 0
        = [(⟨reportA1⟩, true)] :=
  ⟨rfl,
    (answerQuery_surfaces_failure ⟨0, [], []⟩ (constHeap "/var/crash")
      (constFS ⟨[reportA1], some .ioError⟩) (limitSink 5) 0 .ioError rfl).1,
    (answerQuery_surfaces_failure ⟨0, [], []⟩ (constHeap "/var/crash")
      (constFS ⟨[reportA1], some .ioError⟩) (limitSink 5) 0 .ioError rfl).2.2.2.2⟩

/-! ## Polarity of the callback -/

/-- C9, as the code has it — the callback `answerQuery` passes to the enumerator
returns the negation of `processDataset(Row(cr))` and leaves the query in the
state `processDataset` left it in: false to continue, true to stop. The enumerator
that stops at the first true therefore goes on to the next report exactly when
`processDataset` answered true. -/
theorem visitor_negates {σ : Type} (q : Query σ) (cr : CrashReport) (s : σ)
    (rest : List CrashReport) :
    (TableCrashReports.answerQuery.visitor q cr s).1 = !(q.processDataset ⟨cr⟩ s).1
      ∧ (TableCrashReports.answerQuery.visitor q cr s).2 = (q.processDataset ⟨cr⟩ s).2
      ∧ mk.crash_report.anyLoop (TableCrashReports.answerQuery.visitor q) (cr :: rest) s
        = if (q.processDataset ⟨cr⟩ s).1 = true then
            mk.crash_report.anyLoop (TableCrashReports.answerQuery.visitor q) rest
              (q.processDataset ⟨cr⟩ s).2
          else (true, (q.processDataset ⟨cr⟩ s).2) := by
  refine ⟨by rw [visitor_eq], by rw [visitor_eq], ?_⟩
  rw [mk.crash_report.anyLoop, visitor_eq]
  rcases hp : q.processDataset ⟨cr⟩ s with ⟨b, s1⟩
  cases b <;> simp

/-- C9 as stated fails: on a sink that answers true (continue) the callback
returns false, not the same Boolean. -/
theorem visitor_not_same_boolean :
    (fullScanSink.processDataset ⟨reportA1⟩ ()).1 = true
      ∧ (TableCrashReports.answerQuery.visitor fullScanSink reportA1 ()).1 = false
      ∧ (TableCrashReports.answerQuery.visitor fullScanSink reportA1 ()).1
        ≠ (fullScanSink.processDataset ⟨reportA1⟩ ()).1 :=
  ⟨rfl, rfl, by decide⟩
